import Mathlib

/-!
Verification of `fastreg` (src/fastreg/ols.py), a batched ordinary-least-squares
linear regression: `fit(xdata, ydata)` takes a length-`n` independent vector and
an `n × m` dependent matrix and returns a `5 × m` matrix of per-column
statistics `[slope, intercept, pearson_r, p_value, stderr]`.

Two embeddings are given.

* A real-valued embedding (`Fastreg.fit` and its per-line components), a direct
  transliteration of the arithmetic of `ols.py` into exact real arithmetic.
  It describes the values the code computes on the non-degenerate path, where
  no division by zero and no square root of a negative number occurs.

* An IEEE-special-value embedding (`Fastreg.fitF` over the value type
  `Fastreg.F` = finite real / +inf / -inf / NaN, with result in `Except`),
  which additionally models the exceptional behaviour of the code:
  `np.linalg.solve` raises `LinAlgError` on a singular normal matrix, the
  Python-level `1. / df` raises `ZeroDivisionError` when `df = 0`, and
  divisions like `0/0` produce NaN that then propagates through later
  arithmetic, as in `numpy`.

The scipy Student-t survival function `stats.distributions.t.sf` is an external
library the code calls; both embeddings take it as a parameter
`sf : ℝ → ℝ → ℝ` (argument order `sf t df`, as in `t.sf(t, df)`), and theorems
that depend on its behaviour state the library's documented contract as
hypotheses.
-/

noncomputable section

namespace Fastreg

variable {n m : ℕ}

/-- Modelled from the spec: `utils.add_constant` (section 4.2 of the design
document; the module `utils` is not part of the sources) appends a column of
ones to the independent-variable vector, producing the `n × 2` augmented
design matrix `[x | 1]` of step 1 of the algorithm. -/
def add_constant (x : Fin n → ℝ) : Fin n → Fin 2 → ℝ :=
  fun i c => if c = 0 then x i else 1

/-- Source `xdata.mean(0)` / per-column `ydata.mean(0)`: the arithmetic mean. -/
def mean (v : Fin n → ℝ) : ℝ := (∑ i, v i) / n

/-- Source `mat1`: the shared `2 × 2` normal matrix `X'ᵀ X'` built (via the
`np.dot`/`np.swapaxes` dance of ols.py lines 37-38) from the augmented design
matrix. -/
def mat1 (x : Fin n → ℝ) : Fin 2 → Fin 2 → ℝ :=
  fun a b => ∑ i, add_constant x i a * add_constant x i b

/-- Source `mat2 = np.dot(xdata_plus_const.T, ydata)`: the `2 × m` right-hand sides
`X'ᵀ Y`. -/
def mat2 (x : Fin n → ℝ) (Y : Fin n → Fin m → ℝ) : Fin 2 → Fin m → ℝ :=
  fun a j => ∑ i, add_constant x i a * Y i j

/-- Determinant of a `2 × 2` matrix. -/
def det2 (A : Fin 2 → Fin 2 → ℝ) : ℝ := A 0 0 * A 1 1 - A 0 1 * A 1 0

/-- Model of `np.linalg.solve` on one `2 × 2` system: for a nonsingular matrix it
returns the unique solution, written here in closed (Cramer) form. The
singular case, where `np.linalg.solve` raises `LinAlgError` instead of
returning, is modelled in `fitF`. -/
def solve2 (A : Fin 2 → Fin 2 → ℝ) (b : Fin 2 → ℝ) : Fin 2 → ℝ :=
  fun c =>
    if c = 0 then (b 0 * A 1 1 - A 0 1 * b 1) / det2 A
    else (A 0 0 * b 1 - b 0 * A 1 0) / det2 A

/-- Source `beta = np.linalg.solve(mat1, mat2.T)`: row `j` of `beta` solves the
shared normal matrix against column `j` of `mat2` (numpy broadcasts the
single `2 × 2` matrix over the `m` right-hand-side vectors). -/
def beta (x : Fin n → ℝ) (Y : Fin n → Fin m → ℝ) (j : Fin m) : Fin 2 → ℝ :=
  solve2 (mat1 x) (fun a => mat2 x Y a j)

/-- Source `output = beta.T`: row 0 holds the slopes, row 1 the intercepts. -/
def output (x : Fin n → ℝ) (Y : Fin n → Fin m → ℝ) : Fin 2 → Fin m → ℝ :=
  fun a j => beta x Y j a

/-- Source `xm = xdata - xdata.mean(0)`: the centered independent vector. -/
def xm (x : Fin n → ℝ) : Fin n → ℝ := fun i => x i - mean x

/-- Source `ym = ydata - ydata.mean(0)`: the column-wise centered dependent matrix. -/
def ym (Y : Fin n → Fin m → ℝ) : Fin n → Fin m → ℝ :=
  fun i j => Y i j - mean (fun k => Y k j)

/-- Library call `stats.ss`: sum of squares of a vector. -/
def ss (v : Fin n → ℝ) : ℝ := ∑ i, v i ^ 2

/-- Source `r_num = np.dot(xm, ym)`. -/
def r_num (x : Fin n → ℝ) (Y : Fin n → Fin m → ℝ) : Fin m → ℝ :=
  fun j => ∑ i, xm x i * ym Y i j

/-- Source `r_den = np.sqrt(stats.ss(xm) * stats.ss(ym))`, per column. -/
def r_den (x : Fin n → ℝ) (Y : Fin n → Fin m → ℝ) : Fin m → ℝ :=
  fun j => Real.sqrt (ss (xm x) * ss (fun i => ym Y i j))

/-- Source `pearson_r = r_num / r_den`. No epsilon guard appears here. -/
def pearson_r (x : Fin n → ℝ) (Y : Fin n → Fin m → ℝ) : Fin m → ℝ :=
  fun j => r_num x Y j / r_den x Y j

/-- Source `TINY = 1.0e-20`, the epsilon used only inside the t-statistic
denominator. -/
def TINY : ℝ := 1e-20

/-- Source `df = ntim - 2`, as the real number used in the statistics formulas. -/
def df (n : ℕ) : ℝ := (n : ℝ) - 2

/-- Source `tval = pearson_r * np.sqrt(df / ((1.0 - pearson_r + TINY) *
(1.0 + pearson_r + TINY)))`. -/
def tval (x : Fin n → ℝ) (Y : Fin n → Fin m → ℝ) : Fin m → ℝ :=
  fun j =>
    pearson_r x Y j *
      Real.sqrt (df n /
        ((1 - pearson_r x Y j + TINY) * (1 + pearson_r x Y j + TINY)))

/-- Source `pval = stats.distributions.t.sf(np.abs(tval), df) * 2`, with the external
survival function passed as the parameter `sf`. -/
def pval (sf : ℝ → ℝ → ℝ) (x : Fin n → ℝ) (Y : Fin n → Fin m → ℝ) :
    Fin m → ℝ :=
  fun j => sf |tval x Y j| (df n) * 2

/-- Source `sst = np.sum(ym ** 2, 0)`. -/
def sst (Y : Fin n → Fin m → ℝ) : Fin m → ℝ := fun j => ∑ i, ym Y i j ^ 2

/-- Source `ssr = (output[0, :] ** 2) * np.sum(xm ** 2)`. -/
def ssr (x : Fin n → ℝ) (Y : Fin n → Fin m → ℝ) : Fin m → ℝ :=
  fun j => output x Y 0 j ^ 2 * ∑ i, xm x i ^ 2

/-- Source `se = np.sqrt((1. / df) * (sst - ssr))`. -/
def se (x : Fin n → ℝ) (Y : Fin n → Fin m → ℝ) : Fin m → ℝ :=
  fun j => Real.sqrt ((1 / df n) * (sst Y j - ssr x Y j))

/-- Source `stderr = se / np.sqrt(np.sum(xm ** 2))`. -/
def stderr (x : Fin n → ℝ) (Y : Fin n → Fin m → ℝ) : Fin m → ℝ :=
  fun j => se x Y j / Real.sqrt (∑ i, xm x i ^ 2)

/-- Source `np.vstack([output, pearson_r, pval, stderr])`: the `5 × m` result, rows
in order slope, intercept, Pearson r, two-sided p-value, standard error of
the slope. -/
def fit (sf : ℝ → ℝ → ℝ) (x : Fin n → ℝ) (Y : Fin n → Fin m → ℝ) :
    Fin 5 → Fin m → ℝ :=
  fun r j =>
    if r = 0 then output x Y 0 j
    else if r = 1 then output x Y 1 j
    else if r = 2 then pearson_r x Y j
    else if r = 3 then pval sf x Y j
    else stderr x Y j

/-! Helper algebra: sums, means and the centered-sum identities. -/

lemma card_mul_mean (v : Fin n → ℝ) (hn : n ≠ 0) : (n : ℝ) * mean v = ∑ i, v i := by
  have hN : (n : ℝ) ≠ 0 := Nat.cast_ne_zero.mpr hn
  rw [mean]
  field_simp

lemma sum_centered_mul (u v : Fin n → ℝ) (hn : n ≠ 0) :
    ∑ i, (u i - mean u) * (v i - mean v) =
      (∑ i, u i * v i) - (∑ i, u i) * (∑ i, v i) / n := by
  have hN : (n : ℝ) ≠ 0 := Nat.cast_ne_zero.mpr hn
  have hexp : ∀ i, (u i - mean u) * (v i - mean v) =
      u i * v i - mean v * u i - mean u * v i + mean u * mean v := by
    intro i; ring
  rw [Finset.sum_congr rfl fun i _ => hexp i]
  rw [Finset.sum_add_distrib, Finset.sum_sub_distrib, Finset.sum_sub_distrib,
    ← Finset.mul_sum, ← Finset.mul_sum, Finset.sum_const, Finset.card_univ,
    Fintype.card_fin, nsmul_eq_mul]
  rw [mean, mean]
  field_simp
  ring

lemma mat1_zero_zero (x : Fin n → ℝ) : mat1 x 0 0 = ∑ i, x i * x i := by
  simp [mat1, add_constant]

lemma mat1_zero_one (x : Fin n → ℝ) : mat1 x 0 1 = ∑ i, x i := by
  simp [mat1, add_constant]

lemma mat1_one_zero (x : Fin n → ℝ) : mat1 x 1 0 = ∑ i, x i := by
  simp [mat1, add_constant]

lemma mat1_one_one (x : Fin n → ℝ) : mat1 x 1 1 = (n : ℝ) := by
  simp [mat1, add_constant]

lemma mat2_zero (x : Fin n → ℝ) (Y : Fin n → Fin m → ℝ) (j : Fin m) :
    mat2 x Y 0 j = ∑ i, x i * Y i j := by
  simp [mat2, add_constant]

lemma mat2_one (x : Fin n → ℝ) (Y : Fin n → Fin m → ℝ) (j : Fin m) :
    mat2 x Y 1 j = ∑ i, Y i j := by
  simp [mat2, add_constant]

lemma ss_xm_eq (x : Fin n → ℝ) (hn : n ≠ 0) :
    ss (xm x) = (∑ i, x i * x i) - (∑ i, x i) * (∑ i, x i) / n := by
  rw [ss]
  simp only [xm, pow_two]
  exact sum_centered_mul x x hn

lemma r_num_eq (x : Fin n → ℝ) (Y : Fin n → Fin m → ℝ) (j : Fin m) (hn : n ≠ 0) :
    r_num x Y j = (∑ i, x i * Y i j) - (∑ i, x i) * (∑ i, Y i j) / n := by
  rw [r_num]
  simp only [xm, ym]
  exact sum_centered_mul x (fun k => Y k j) hn

lemma det2_mat1 (x : Fin n → ℝ) (hn : n ≠ 0) :
    det2 (mat1 x) = n * ss (xm x) := by
  have hN : (n : ℝ) ≠ 0 := Nat.cast_ne_zero.mpr hn
  rw [det2, mat1_zero_zero, mat1_zero_one, mat1_one_zero, mat1_one_one,
    ss_xm_eq x hn]
  field_simp

/-- The slope actually computed by the batched normal-equations solve, in
centered closed form. -/
lemma output_zero_eq (x : Fin n → ℝ) (Y : Fin n → Fin m → ℝ) (j : Fin m)
    (hn : n ≠ 0) (hvar : ss (xm x) ≠ 0) :
    output x Y 0 j = r_num x Y j / ss (xm x) := by
  have hN : (n : ℝ) ≠ 0 := Nat.cast_ne_zero.mpr hn
  have hS : ((∑ i, x i * x i) - (∑ i, x i) * (∑ i, x i) / n) ≠ 0 := by
    rw [← ss_xm_eq x hn]; exact hvar
  show solve2 (mat1 x) (fun a => mat2 x Y a j) 0 = _
  rw [solve2, if_pos rfl, det2_mat1 x hn, mat1_one_one, mat1_zero_one,
    mat2_zero, mat2_one, r_num_eq x Y j hn, ss_xm_eq x hn]
  field_simp

/-- The intercept actually computed by the batched normal-equations solve, in
centered closed form. -/
lemma output_one_eq (x : Fin n → ℝ) (Y : Fin n → Fin m → ℝ) (j : Fin m)
    (hn : n ≠ 0) (hvar : ss (xm x) ≠ 0) :
    output x Y 1 j =
      mean (fun k => Y k j) - (r_num x Y j / ss (xm x)) * mean x := by
  have hN : (n : ℝ) ≠ 0 := Nat.cast_ne_zero.mpr hn
  have hS : ((∑ i, x i * x i) - (∑ i, x i) * (∑ i, x i) / n) ≠ 0 := by
    rw [← ss_xm_eq x hn]; exact hvar
  have hnum : (∑ i, x i * x i) * (∑ i, Y i j) - (∑ i, x i * Y i j) * (∑ i, x i)
      = (∑ i, Y i j) * ss (xm x) - r_num x Y j * (∑ i, x i) := by
    rw [ss_xm_eq x hn, r_num_eq x Y j hn]
    field_simp
    ring
  show solve2 (mat1 x) (fun a => mat2 x Y a j) 1 = _
  have h1 : (1 : Fin 2) ≠ 0 := by decide
  rw [solve2, if_neg h1, det2_mat1 x hn, mat1_zero_zero, mat1_one_zero,
    mat2_zero, mat2_one, hnum, mean, mean]
  field_simp
  ring

/-- Following the spec's words (for the refinement claim C1): the per-column
simple-OLS closed-form slope, `slope_j = sum(xm * ym_j) / sum(xm^2)`. -/
def specSlope (x : Fin n → ℝ) (Y : Fin n → Fin m → ℝ) (j : Fin m) : ℝ :=
  (∑ i, xm x i * ym Y i j) / ∑ i, xm x i ^ 2

/-- Following the spec's words (for the refinement claim C1): the per-column
simple-OLS closed-form intercept, `intercept_j = mean(Y_j) - slope_j * mean(x)`. -/
def specIntercept (x : Fin n → ℝ) (Y : Fin n → Fin m → ℝ) (j : Fin m) : ℝ :=
  mean (fun k => Y k j) - specSlope x Y j * mean x

end Fastreg

namespace Fastreg

/-- C1: for every `x` of length `n ≥ 2` with non-zero variance and every
`n × m` matrix `Y`, the slope and intercept rows produced by the single
batched normal-equations solve `(X'ᵀX') β = X'ᵀY` equal, column by column,
the per-column simple-OLS closed forms
`slope_j = sum(xm * ym_j) / sum(xm^2)` and
`intercept_j = mean(Y_j) - slope_j * mean(x)`. -/
theorem c1_batched_solve_matches_per_column_ols (x : Fin n → ℝ)
    (Y : Fin n → Fin m → ℝ) (h2 : 2 ≤ n) (hvar : ss (xm x) ≠ 0) (j : Fin m) :
    output x Y 0 j = specSlope x Y j ∧ output x Y 1 j = specIntercept x Y j := by
  have hn : n ≠ 0 := by omega
  have hslope : output x Y 0 j = specSlope x Y j := by
    rw [output_zero_eq x Y j hn hvar]; rfl
  refine ⟨hslope, ?_⟩
  rw [output_one_eq x Y j hn hvar, specIntercept, ← hslope]
  rw [output_zero_eq x Y j hn hvar]

/-- Witness for C1: the concrete input `x = [0, 1]`, `Y = [[0], [1]]`. -/
theorem c1_batched_solve_matches_per_column_ols_witness :
    output (![0, 1] : Fin 2 → ℝ) (fun i _ => ![0, 1] i : Fin 2 → Fin 1 → ℝ) 0 (0 : Fin 1)
        = specSlope (![0, 1] : Fin 2 → ℝ) (fun i _ => ![0, 1] i : Fin 2 → Fin 1 → ℝ) 0 ∧
      output (![0, 1] : Fin 2 → ℝ) (fun i _ => ![0, 1] i : Fin 2 → Fin 1 → ℝ) 1 0
        = specIntercept (![0, 1] : Fin 2 → ℝ) (fun i _ => ![0, 1] i : Fin 2 → Fin 1 → ℝ) 0 :=
  c1_batched_solve_matches_per_column_ols (![0, 1]) (fun i _ => ![0, 1] i : Fin 2 → Fin 1 → ℝ)
    (by norm_num)
    (by norm_num [ss, xm, mean, Fin.sum_univ_two]) 0

/-! Positivity and Cauchy-Schwarz facts about the sums of squares. -/

lemma ss_nonneg (v : Fin n → ℝ) : 0 ≤ ss v :=
  Finset.sum_nonneg fun i _ => sq_nonneg (v i)

lemma ss_pos_of_ne_zero {v : Fin n → ℝ} (h : ss v ≠ 0) : 0 < ss v :=
  lt_of_le_of_ne (ss_nonneg v) (Ne.symm h)

lemma r_num_sq_le (x : Fin n → ℝ) (Y : Fin n → Fin m → ℝ) (j : Fin m) :
    r_num x Y j ^ 2 ≤ ss (xm x) * ss (fun i => ym Y i j) := by
  have h := Finset.sum_mul_sq_le_sq_mul_sq Finset.univ (xm x)
    (fun i => ym Y i j)
  simpa [r_num, ss] using h

lemma abs_r_num_le_r_den (x : Fin n → ℝ) (Y : Fin n → Fin m → ℝ) (j : Fin m) :
    |r_num x Y j| ≤ r_den x Y j := by
  rw [r_den]
  calc |r_num x Y j| = Real.sqrt (r_num x Y j ^ 2) :=
        (Real.sqrt_sq_eq_abs _).symm
    _ ≤ Real.sqrt (ss (xm x) * ss (fun i => ym Y i j)) :=
        Real.sqrt_le_sqrt (r_num_sq_le x Y j)

lemma r_den_pos (x : Fin n → ℝ) (Y : Fin n → Fin m → ℝ) (j : Fin m)
    (hx : ss (xm x) ≠ 0) (hy : ss (fun i => ym Y i j) ≠ 0) :
    0 < r_den x Y j :=
  Real.sqrt_pos.mpr (mul_pos (ss_pos_of_ne_zero hx) (ss_pos_of_ne_zero hy))

lemma abs_pearson_r_le_one (x : Fin n → ℝ) (Y : Fin n → Fin m → ℝ) (j : Fin m)
    (hx : ss (xm x) ≠ 0) (hy : ss (fun i => ym Y i j) ≠ 0) :
    |pearson_r x Y j| ≤ 1 := by
  have hden := r_den_pos x Y j hx hy
  rw [pearson_r, abs_div, abs_of_pos hden, div_le_one hden]
  exact abs_r_num_le_r_den x Y j

/-! Columns that are an exact affine image of `x`. -/

lemma mean_affine (x : Fin n → ℝ) (a b : ℝ) (hn : n ≠ 0) :
    mean (fun i => a * x i + b) = a * mean x + b := by
  have hN : (n : ℝ) ≠ 0 := Nat.cast_ne_zero.mpr hn
  rw [mean, mean, Finset.sum_add_distrib, ← Finset.mul_sum, Finset.sum_const,
    Finset.card_univ, Fintype.card_fin, nsmul_eq_mul]
  field_simp
  ring

lemma ym_affine {x : Fin n → ℝ} {Y : Fin n → Fin m → ℝ} {j : Fin m} {a b : ℝ}
    (hY : ∀ i, Y i j = a * x i + b) (hn : n ≠ 0) (i : Fin n) :
    ym Y i j = a * xm x i := by
  have hcol : (fun k => Y k j) = fun k => a * x k + b := funext hY
  rw [ym]
  show Y i j - mean (fun k => Y k j) = _
  rw [hY i, hcol, mean_affine x a b hn, xm]
  ring

lemma r_num_affine {x : Fin n → ℝ} {Y : Fin n → Fin m → ℝ} {j : Fin m}
    {a b : ℝ} (hY : ∀ i, Y i j = a * x i + b) (hn : n ≠ 0) :
    r_num x Y j = a * ss (xm x) := by
  rw [r_num, ss]
  rw [Finset.sum_congr rfl fun i _ => by rw [ym_affine hY hn i]]
  rw [Finset.sum_congr rfl fun i _ =>
    show xm x i * (a * xm x i) = a * xm x i ^ 2 by ring]
  rw [← Finset.mul_sum]

lemma ss_ym_affine {x : Fin n → ℝ} {Y : Fin n → Fin m → ℝ} {j : Fin m}
    {a b : ℝ} (hY : ∀ i, Y i j = a * x i + b) (hn : n ≠ 0) :
    ss (fun i => ym Y i j) = a ^ 2 * ss (xm x) := by
  rw [ss, ss]
  rw [Finset.sum_congr rfl fun i _ => by rw [ym_affine hY hn i]]
  rw [Finset.sum_congr rfl fun i _ =>
    show (a * xm x i) ^ 2 = a ^ 2 * xm x i ^ 2 by ring]
  rw [← Finset.mul_sum]

lemma div_abs_eq_sign (a : ℝ) (ha : a ≠ 0) : a / |a| = Real.sign a := by
  rcases lt_or_gt_of_ne ha with h | h
  · rw [abs_of_neg h, Real.sign_of_neg h, div_neg, div_self h.ne]
  · rw [abs_of_pos h, Real.sign_of_pos h, div_self h.ne']

lemma pearson_r_affine {x : Fin n → ℝ} {Y : Fin n → Fin m → ℝ} {j : Fin m}
    {a b : ℝ} (hY : ∀ i, Y i j = a * x i + b) (hn : n ≠ 0) (ha : a ≠ 0)
    (hvar : ss (xm x) ≠ 0) : pearson_r x Y j = a / |a| := by
  have hS : 0 < ss (xm x) := ss_pos_of_ne_zero hvar
  rw [pearson_r, r_den, r_num_affine hY hn, ss_ym_affine hY hn]
  have hsq : ss (xm x) * (a ^ 2 * ss (xm x)) = (|a| * ss (xm x)) ^ 2 := by
    rw [mul_pow, sq_abs]; ring
  rw [hsq, Real.sqrt_sq (by positivity)]
  rw [mul_comm a (ss (xm x)), mul_comm |a| (ss (xm x)), mul_div_mul_left _ _ hS.ne']

/-! Row projections of the stacked result. -/

lemma fit_apply_zero (sf : ℝ → ℝ → ℝ) (x : Fin n → ℝ) (Y : Fin n → Fin m → ℝ)
    (j : Fin m) : fit sf x Y 0 j = output x Y 0 j := by simp [fit]

lemma fit_apply_one (sf : ℝ → ℝ → ℝ) (x : Fin n → ℝ) (Y : Fin n → Fin m → ℝ)
    (j : Fin m) : fit sf x Y 1 j = output x Y 1 j := by simp [fit]

lemma fit_apply_two (sf : ℝ → ℝ → ℝ) (x : Fin n → ℝ) (Y : Fin n → Fin m → ℝ)
    (j : Fin m) : fit sf x Y 2 j = pearson_r x Y j := by simp [fit]

lemma fit_apply_three (sf : ℝ → ℝ → ℝ) (x : Fin n → ℝ) (Y : Fin n → Fin m → ℝ)
    (j : Fin m) : fit sf x Y 3 j = pval sf x Y j := by simp [fit]

lemma fit_apply_four (sf : ℝ → ℝ → ℝ) (x : Fin n → ℝ) (Y : Fin n → Fin m → ℝ)
    (j : Fin m) : fit sf x Y 4 j = stderr x Y j := by simp [fit]

/-! Slope, intercept, standard error and t-statistic on an exact affine
column. -/

lemma output_zero_affine {x : Fin n → ℝ} {Y : Fin n → Fin m → ℝ} {j : Fin m}
    {a b : ℝ} (hY : ∀ i, Y i j = a * x i + b) (hn : n ≠ 0)
    (hvar : ss (xm x) ≠ 0) : output x Y 0 j = a := by
  rw [output_zero_eq x Y j hn hvar, r_num_affine hY hn,
    mul_div_assoc, div_self hvar, mul_one]

lemma output_one_affine {x : Fin n → ℝ} {Y : Fin n → Fin m → ℝ} {j : Fin m}
    {a b : ℝ} (hY : ∀ i, Y i j = a * x i + b) (hn : n ≠ 0)
    (hvar : ss (xm x) ≠ 0) : output x Y 1 j = b := by
  have hcol : (fun k => Y k j) = fun k => a * x k + b := funext hY
  rw [output_one_eq x Y j hn hvar, r_num_affine hY hn, mul_div_assoc,
    div_self hvar, mul_one, hcol, mean_affine x a b hn]
  ring

lemma stderr_affine {x : Fin n → ℝ} {Y : Fin n → Fin m → ℝ} {j : Fin m}
    {a b : ℝ} (hY : ∀ i, Y i j = a * x i + b) (hn : n ≠ 0)
    (hvar : ss (xm x) ≠ 0) : stderr x Y j = 0 := by
  have hsst : sst Y j = a ^ 2 * ss (xm x) := ss_ym_affine hY hn
  have hssr : ssr x Y j = a ^ 2 * ss (xm x) := by
    rw [ssr, output_zero_affine hY hn hvar]; rfl
  rw [stderr, se, hsst, hssr, sub_self, mul_zero, Real.sqrt_zero, zero_div]

lemma abs_tval_affine {x : Fin n → ℝ} {Y : Fin n → Fin m → ℝ} {j : Fin m}
    {a b : ℝ} (hY : ∀ i, Y i j = a * x i + b) (hn : n ≠ 0) (ha : a ≠ 0)
    (hvar : ss (xm x) ≠ 0) :
    |tval x Y j| = Real.sqrt (df n / (TINY * (2 + TINY))) := by
  have hr := pearson_r_affine hY hn ha hvar
  rcases lt_or_gt_of_ne ha with hneg | hpos
  · have h1 : pearson_r x Y j = -1 := by
      rw [hr, abs_of_neg hneg, div_neg, div_self hneg.ne]
    have harg : (1 - (-1) + TINY) * (1 + (-1) + TINY) = TINY * (2 + TINY) := by
      ring
    rw [tval, h1, harg, abs_mul, abs_neg, abs_one, one_mul,
      abs_of_nonneg (Real.sqrt_nonneg _)]
  · have h1 : pearson_r x Y j = 1 := by
      rw [hr, abs_of_pos hpos, div_self hpos.ne']
    have harg : (1 - 1 + TINY) * (1 + 1 + TINY) = TINY * (2 + TINY) := by ring
    rw [tval, h1, harg, one_mul, abs_of_nonneg (Real.sqrt_nonneg _)]

lemma tval_magnitude_lower_bound (h3 : 3 ≤ n) :
    (10 : ℝ) ^ 9 ≤ Real.sqrt (df n / (TINY * (2 + TINY))) := by
  have hdf : (1 : ℝ) ≤ df n := by
    rw [df]
    have h : (3 : ℝ) ≤ (n : ℝ) := by exact_mod_cast h3
    linarith
  have hDpos : (0 : ℝ) < TINY * (2 + TINY) := by norm_num [TINY]
  have hq : ((10 : ℝ) ^ 9) ^ 2 ≤ df n / (TINY * (2 + TINY)) := by
    rw [le_div_iff₀ hDpos]
    have hsmall : ((10 : ℝ) ^ 9) ^ 2 * (TINY * (2 + TINY)) ≤ 1 := by
      norm_num [TINY]
    linarith
  calc (10 : ℝ) ^ 9 = Real.sqrt (((10 : ℝ) ^ 9) ^ 2) :=
        (Real.sqrt_sq (by norm_num)).symm
    _ ≤ _ := Real.sqrt_le_sqrt hq

/-- C2: `fit` returns a `5 × m` matrix (the result type `Fin 5 → Fin m → ℝ`)
whose rows, in order, are slope (`output` row 0), intercept (`output` row 1),
Pearson r, two-sided p-value, and standard error of the slope, with output
column `j` aligned to input column `j` of `Y`. -/
theorem c2_fit_rows_in_order (sf : ℝ → ℝ → ℝ) (x : Fin n → ℝ)
    (Y : Fin n → Fin m → ℝ) (j : Fin m) :
    fit sf x Y 0 j = output x Y 0 j ∧
      fit sf x Y 1 j = output x Y 1 j ∧
      fit sf x Y 2 j = pearson_r x Y j ∧
      fit sf x Y 3 j = pval sf x Y j ∧
      fit sf x Y 4 j = stderr x Y j :=
  ⟨fit_apply_zero sf x Y j, fit_apply_one sf x Y j, fit_apply_two sf x Y j,
    fit_apply_three sf x Y j, fit_apply_four sf x Y j⟩

/-- C3: for `x` of length `n ≥ 3` with non-zero variance, if column `j` of
`Y` equals `a*x + b` exactly with `a ≠ 0`, then `fit` returns `slope_j = a`,
`intercept_j = b`, `r_j = sign a` and `stderr_j = 0`; moreover the
t-statistic has magnitude at least `10^9` (the `1e-20` epsilon makes it
finite but enormous), so for any survival function that is nonnegative and
at most `10⁻⁹` beyond `10^9`, the returned p-value lies in `[0, 2·10⁻⁹]`,
i.e. it is approximately `0`. -/
theorem c3_noiseless_affine_recovery (sf : ℝ → ℝ → ℝ) (x : Fin n → ℝ)
    (Y : Fin n → Fin m → ℝ) (j : Fin m) (a b : ℝ) (h3 : 3 ≤ n)
    (hvar : ss (xm x) ≠ 0) (ha : a ≠ 0) (hY : ∀ i, Y i j = a * x i + b)
    (hsf0 : ∀ t d, 0 ≤ sf t d)
    (hsfT : ∀ t d, (10 : ℝ) ^ 9 ≤ t → sf t d ≤ 1 / 10 ^ 9) :
    fit sf x Y 0 j = a ∧ fit sf x Y 1 j = b ∧
      fit sf x Y 2 j = Real.sign a ∧ fit sf x Y 4 j = 0 ∧
      (10 : ℝ) ^ 9 ≤ |tval x Y j| ∧ 0 ≤ fit sf x Y 3 j ∧
      fit sf x Y 3 j ≤ 2 / 10 ^ 9 := by
  have hn : n ≠ 0 := by omega
  have htabs : (10 : ℝ) ^ 9 ≤ |tval x Y j| := by
    rw [abs_tval_affine hY hn ha hvar]
    exact tval_magnitude_lower_bound h3
  have hp0 : 0 ≤ pval sf x Y j := by
    rw [pval]
    have := hsf0 |tval x Y j| (df n)
    linarith
  have hpU : pval sf x Y j ≤ 2 / 10 ^ 9 := by
    rw [pval]
    have := hsfT |tval x Y j| (df n) htabs
    linarith
  refine ⟨?_, ?_, ?_, ?_, htabs, ?_, ?_⟩
  · rw [fit_apply_zero]; exact output_zero_affine hY hn hvar
  · rw [fit_apply_one]; exact output_one_affine hY hn hvar
  · rw [fit_apply_two, pearson_r_affine hY hn ha hvar]
    exact div_abs_eq_sign a ha
  · rw [fit_apply_four]; exact stderr_affine hY hn hvar
  · rw [fit_apply_three]; exact hp0
  · rw [fit_apply_three]; exact hpU

/-- Witness for C3: the spec's concrete scenario `x = [1,2,3,4,5]`,
`Y` column `[2,4,6,8,10]`, `a = 2`, `b = 0`, with the trivial survival
function `sf = 0`. -/
theorem c3_noiseless_affine_recovery_witness :
    fit (fun _ _ => 0) (![1, 2, 3, 4, 5] : Fin 5 → ℝ)
        (fun i _ => ![2, 4, 6, 8, 10] i : Fin 5 → Fin 1 → ℝ) 0 0 = 2 ∧
      fit (fun _ _ => 0) ![1, 2, 3, 4, 5]
        (fun i _ => ![2, 4, 6, 8, 10] i : Fin 5 → Fin 1 → ℝ) 1 0 = 0 ∧
      fit (fun _ _ => 0) ![1, 2, 3, 4, 5]
        (fun i _ => ![2, 4, 6, 8, 10] i : Fin 5 → Fin 1 → ℝ) 2 0 = Real.sign 2 ∧
      fit (fun _ _ => 0) ![1, 2, 3, 4, 5]
        (fun i _ => ![2, 4, 6, 8, 10] i : Fin 5 → Fin 1 → ℝ) 4 0 = 0 ∧
      (10 : ℝ) ^ 9 ≤
        |tval ![1, 2, 3, 4, 5] (fun i _ => ![2, 4, 6, 8, 10] i : Fin 5 → Fin 1 → ℝ) 0| ∧
      0 ≤ fit (fun _ _ => 0) ![1, 2, 3, 4, 5]
        (fun i _ => ![2, 4, 6, 8, 10] i : Fin 5 → Fin 1 → ℝ) 3 0 ∧
      fit (fun _ _ => 0) ![1, 2, 3, 4, 5]
        (fun i _ => ![2, 4, 6, 8, 10] i : Fin 5 → Fin 1 → ℝ) 3 0 ≤ 2 / 10 ^ 9 :=
  c3_noiseless_affine_recovery (fun _ _ => 0) ![1, 2, 3, 4, 5]
    (fun i _ => ![2, 4, 6, 8, 10] i) 0 2 0
    (by norm_num)
    (by norm_num [ss, xm, mean, Fin.sum_univ_five])
    (by norm_num)
    (by intro i; fin_cases i <;> norm_num)
    (fun t d => le_refl 0)
    (by intro t d h; norm_num)

/-! Column independence: every statistic of column `k` is a function of `x`
and column `k` of `Y` alone. -/

lemma output_col_congr (x : Fin n → ℝ) (Y Y' : Fin n → Fin m → ℝ) (k : Fin m)
    (h : ∀ i, Y i k = Y' i k) (a : Fin 2) : output x Y a k = output x Y' a k := by
  have hmat2 : (fun c => mat2 x Y c k) = fun c => mat2 x Y' c k := by
    funext c
    rw [mat2, mat2]
    exact Finset.sum_congr rfl fun i _ => by rw [h i]
  show solve2 (mat1 x) (fun c => mat2 x Y c k) a = _
  rw [hmat2]
  rfl

lemma ym_col_congr (Y Y' : Fin n → Fin m → ℝ) (k : Fin m)
    (h : ∀ i, Y i k = Y' i k) (i : Fin n) : ym Y i k = ym Y' i k := by
  have hcol : (fun i => Y i k) = fun i => Y' i k := funext h
  rw [ym, ym, h i, hcol]

lemma fit_col_congr (sf : ℝ → ℝ → ℝ) (x : Fin n → ℝ)
    (Y Y' : Fin n → Fin m → ℝ) (k : Fin m) (h : ∀ i, Y i k = Y' i k)
    (r : Fin 5) : fit sf x Y r k = fit sf x Y' r k := by
  have hym := ym_col_congr Y Y' k h
  have hr_num : r_num x Y k = r_num x Y' k := by
    rw [r_num, r_num]
    exact Finset.sum_congr rfl fun i _ => by rw [hym i]
  have hss_ym : ss (fun i => ym Y i k) = ss (fun i => ym Y' i k) := by
    rw [ss, ss]
    exact Finset.sum_congr rfl fun i _ => by rw [hym i]
  have hr_den : r_den x Y k = r_den x Y' k := by rw [r_den, r_den, hss_ym]
  have hpearson : pearson_r x Y k = pearson_r x Y' k := by
    rw [pearson_r, pearson_r, hr_num, hr_den]
  have htval : tval x Y k = tval x Y' k := by rw [tval, tval, hpearson]
  have hpval : pval sf x Y k = pval sf x Y' k := by rw [pval, pval, htval]
  have hsst : sst Y k = sst Y' k := by
    rw [sst, sst]
    exact Finset.sum_congr rfl fun i _ => by rw [hym i]
  have hssr : ssr x Y k = ssr x Y' k := by
    rw [ssr, ssr, output_col_congr x Y Y' k h 0]
  have hse : se x Y k = se x Y' k := by rw [se, se, hsst, hssr]
  have hstderr : stderr x Y k = stderr x Y' k := by rw [stderr, stderr, hse]
  simp only [fit]
  rw [output_col_congr x Y Y' k h 0, output_col_congr x Y Y' k h 1, hpearson,
    hpval, hstderr]

/-- C6: output column `j` of `fit` depends only on `x` and column `j` of `Y`
(two inputs agreeing on column `k` yield the same output column `k`), and
permuting the columns of `Y` permutes the output columns identically. -/
theorem c6_column_independence_and_permutation (sf : ℝ → ℝ → ℝ)
    (x : Fin n → ℝ) (Y Y' : Fin n → Fin m → ℝ) (σ : Equiv.Perm (Fin m))
    (k : Fin m) :
    ((∀ i, Y i k = Y' i k) → ∀ r, fit sf x Y r k = fit sf x Y' r k) ∧
      (∀ r j, fit sf x (fun i j => Y i (σ j)) r j = fit sf x Y r (σ j)) :=
  ⟨fun h r => fit_col_congr sf x Y Y' k h r, fun _ _ => rfl⟩

/-- Witness for C6: two concrete `2 × 2` matrices sharing column 0 but not
column 1, and the column swap, checked at the Pearson row. -/
theorem c6_column_independence_and_permutation_witness :
    fit (fun _ _ => 0) (![0, 1] : Fin 2 → ℝ)
        (fun i j => ![![1, 2], ![3, 4]] i j : Fin 2 → Fin 2 → ℝ) 2 0
      = fit (fun _ _ => 0) ![0, 1]
        (fun i j => ![![1, 5], ![3, 6]] i j : Fin 2 → Fin 2 → ℝ) 2 0 ∧
      fit (fun _ _ => 0) ![0, 1]
        (fun i j => (fun i j => ![![1, 2], ![3, 4]] i j : Fin 2 → Fin 2 → ℝ) i
          (Equiv.swap 0 1 j)) 2 0
        = fit (fun _ _ => 0) ![0, 1]
          (fun i j => ![![1, 2], ![3, 4]] i j : Fin 2 → Fin 2 → ℝ) 2
          (Equiv.swap 0 1 0) :=
  ⟨(c6_column_independence_and_permutation (fun _ _ => 0) ![0, 1] _ _
      (Equiv.swap 0 1) 0).1 (by intro i; fin_cases i <;> norm_num) 2,
    (c6_column_independence_and_permutation (fun _ _ => 0) ![0, 1] _
      (fun i j => ![![1, 5], ![3, 6]] i j) (Equiv.swap 0 1) 0).2 2 0⟩

/-! Joint row permutations of `(x, Y)`. -/

lemma mean_perm (x : Fin n → ℝ) (σ : Equiv.Perm (Fin n)) :
    mean (fun i => x (σ i)) = mean x := by
  rw [mean, mean, Equiv.sum_comp σ x]

lemma xm_perm (x : Fin n → ℝ) (σ : Equiv.Perm (Fin n)) (i : Fin n) :
    xm (fun i => x (σ i)) i = xm x (σ i) := by
  rw [xm, xm, mean_perm]

lemma ym_perm (Y : Fin n → Fin m → ℝ) (σ : Equiv.Perm (Fin n)) (i : Fin n)
    (j : Fin m) : ym (fun i j => Y (σ i) j) i j = ym Y (σ i) j := by
  rw [ym, ym]
  have : mean (fun k => Y (σ k) j) = mean (fun k => Y k j) :=
    mean_perm (fun k => Y k j) σ
  rw [this]

lemma mat1_perm (x : Fin n → ℝ) (σ : Equiv.Perm (Fin n)) :
    mat1 (fun i => x (σ i)) = mat1 x := by
  funext a b
  rw [mat1, mat1]
  have h : ∀ i, add_constant (fun i => x (σ i)) i a *
      add_constant (fun i => x (σ i)) i b =
      add_constant x (σ i) a * add_constant x (σ i) b := by
    intro i; rw [add_constant, add_constant, add_constant, add_constant]
  rw [Finset.sum_congr rfl fun i _ => h i]
  exact Equiv.sum_comp σ fun i => add_constant x i a * add_constant x i b

lemma mat2_perm (x : Fin n → ℝ) (Y : Fin n → Fin m → ℝ)
    (σ : Equiv.Perm (Fin n)) (a : Fin 2) (j : Fin m) :
    mat2 (fun i => x (σ i)) (fun i j => Y (σ i) j) a j = mat2 x Y a j := by
  rw [mat2, mat2]
  have h : ∀ i, add_constant (fun i => x (σ i)) i a * Y (σ i) j =
      add_constant x (σ i) a * Y (σ i) j := by
    intro i; rw [add_constant, add_constant]
  rw [Finset.sum_congr rfl fun i _ => h i]
  exact Equiv.sum_comp σ fun i => add_constant x i a * Y i j

lemma output_perm (x : Fin n → ℝ) (Y : Fin n → Fin m → ℝ)
    (σ : Equiv.Perm (Fin n)) (a : Fin 2) (j : Fin m) :
    output (fun i => x (σ i)) (fun i j => Y (σ i) j) a j = output x Y a j := by
  have hmat2 : (fun c => mat2 (fun i => x (σ i)) (fun i j => Y (σ i) j) c j) =
      fun c => mat2 x Y c j := funext fun c => mat2_perm x Y σ c j
  show solve2 (mat1 fun i => x (σ i))
      (fun c => mat2 (fun i => x (σ i)) (fun i j => Y (σ i) j) c j) a =
    solve2 (mat1 x) (fun c => mat2 x Y c j) a
  rw [mat1_perm, hmat2]

lemma ss_xm_perm (x : Fin n → ℝ) (σ : Equiv.Perm (Fin n)) :
    ss (xm fun i => x (σ i)) = ss (xm x) := by
  rw [ss, ss]
  rw [Finset.sum_congr rfl fun i _ => by rw [xm_perm x σ i]]
  exact Equiv.sum_comp σ fun i => xm x i ^ 2

/-- C7: jointly permuting the rows of `x` and `Y` by the same permutation
leaves all five output rows (slope, intercept, Pearson r, p-value, stderr)
unchanged in every column. -/
theorem c7_row_pairing_invariance (sf : ℝ → ℝ → ℝ) (x : Fin n → ℝ)
    (Y : Fin n → Fin m → ℝ) (σ : Equiv.Perm (Fin n)) (r : Fin 5) (j : Fin m) :
    fit sf (fun i => x (σ i)) (fun i j => Y (σ i) j) r j = fit sf x Y r j := by
  have hr_num : r_num (fun i => x (σ i)) (fun i j => Y (σ i) j) j =
      r_num x Y j := by
    rw [r_num, r_num]
    rw [Finset.sum_congr rfl fun i _ => by rw [xm_perm x σ i, ym_perm Y σ i j]]
    exact Equiv.sum_comp σ fun i => xm x i * ym Y i j
  have hss_ym : ss (fun i => ym (fun i j => Y (σ i) j) i j) =
      ss (fun i => ym Y i j) := by
    rw [ss, ss]
    rw [Finset.sum_congr rfl fun i _ => by rw [ym_perm Y σ i j]]
    exact Equiv.sum_comp σ fun i => ym Y i j ^ 2
  have hr_den : r_den (fun i => x (σ i)) (fun i j => Y (σ i) j) j =
      r_den x Y j := by
    rw [r_den, r_den, ss_xm_perm, hss_ym]
  have hpearson : pearson_r (fun i => x (σ i)) (fun i j => Y (σ i) j) j =
      pearson_r x Y j := by
    rw [pearson_r, pearson_r, hr_num, hr_den]
  have htval : tval (fun i => x (σ i)) (fun i j => Y (σ i) j) j =
      tval x Y j := by
    rw [tval, tval, hpearson]
  have hpval : pval sf (fun i => x (σ i)) (fun i j => Y (σ i) j) j =
      pval sf x Y j := by
    rw [pval, pval, htval]
  have hsst : sst (fun i j => Y (σ i) j) j = sst Y j := by
    rw [sst, sst]
    rw [Finset.sum_congr rfl fun i _ => by rw [ym_perm Y σ i j]]
    exact Equiv.sum_comp σ fun i => ym Y i j ^ 2
  have hsumxm : (∑ i, xm (fun i => x (σ i)) i ^ 2) = ∑ i, xm x i ^ 2 :=
    ss_xm_perm x σ
  have hssr : ssr (fun i => x (σ i)) (fun i j => Y (σ i) j) j = ssr x Y j := by
    rw [ssr, ssr, output_perm x Y σ 0 j, hsumxm]
  have hse : se (fun i => x (σ i)) (fun i j => Y (σ i) j) j = se x Y j := by
    rw [se, se, hsst, hssr]
  have hstderr : stderr (fun i => x (σ i)) (fun i j => Y (σ i) j) j =
      stderr x Y j := by
    rw [stderr, stderr, hse, hsumxm]
  simp only [fit]
  rw [output_perm x Y σ 0 j, output_perm x Y σ 1 j, hpearson, hpval, hstderr]

/-- C8: for `n ≥ 3` (so `df = n - 2 > 0`), non-degenerate `x` and a column
`j` of `Y` with non-zero variance, the p-value in row 3 lies in `[0, 1]`.
The code computes `p = sf(|t|, df) * 2` with the external scipy survival
function; the hypotheses `hsf0`/`hsf2` are that library's contract (a
survival function of a distribution symmetric about zero is nonnegative and
at most `1/2` on nonnegative arguments). -/
theorem c8_pvalue_in_unit_interval (sf : ℝ → ℝ → ℝ) (x : Fin n → ℝ)
    (Y : Fin n → Fin m → ℝ) (j : Fin m) (h3 : 3 ≤ n) (hx : ss (xm x) ≠ 0)
    (hy : ss (fun i => ym Y i j) ≠ 0)
    (hsf0 : ∀ t d, 0 ≤ t → 0 ≤ sf t d)
    (hsf2 : ∀ t d, 0 ≤ t → sf t d ≤ 1 / 2) :
    fit sf x Y 3 j ∈ Set.Icc (0 : ℝ) 1 := by
  rw [fit_apply_three, pval, Set.mem_Icc]
  constructor
  · have := hsf0 |tval x Y j| (df n) (abs_nonneg _)
    linarith
  · have := hsf2 |tval x Y j| (df n) (abs_nonneg _)
    linarith

/-- Witness for C8: `x = [1,2,3]`, `Y` column `[1,2,3]`, survival function
constantly `1/4`. -/
theorem c8_pvalue_in_unit_interval_witness :
    fit (fun _ _ => 1 / 4) (![1, 2, 3] : Fin 3 → ℝ)
      (fun i _ => ![1, 2, 3] i : Fin 3 → Fin 1 → ℝ) 3 0 ∈ Set.Icc (0 : ℝ) 1 :=
  c8_pvalue_in_unit_interval (fun _ _ => 1 / 4) ![1, 2, 3]
    (fun i _ => ![1, 2, 3] i) 0
    (by norm_num)
    (by norm_num [ss, xm, mean, Fin.sum_univ_three])
    (by norm_num [ss, ym, mean, Fin.sum_univ_three])
    (by intro t d h; norm_num)
    (by intro t d h; norm_num)

/-- C9: when `x` and column `j` of `Y` both have non-zero variance, the
Pearson correlation in row 2 lies in `[-1, 1]` (exactly, in exact real
arithmetic: the `1e-20` epsilon does not enter the `r` computation). -/
theorem c9_pearson_r_bounded (sf : ℝ → ℝ → ℝ) (x : Fin n → ℝ)
    (Y : Fin n → Fin m → ℝ) (j : Fin m) (hx : ss (xm x) ≠ 0)
    (hy : ss (fun i => ym Y i j) ≠ 0) :
    fit sf x Y 2 j ∈ Set.Icc (-1 : ℝ) 1 := by
  rw [fit_apply_two, Set.mem_Icc]
  exact abs_le.mp (abs_pearson_r_le_one x Y j hx hy)

/-! Square-root algebra shared by the slope / r / t-statistic relation. -/

lemma sqrt_ratio_algebra (N S T D : ℝ) (hS : 0 < S) (hT : 0 < T) (hD : 0 < D)
    (hE : 0 < T - N ^ 2 / S) :
    N / (Real.sqrt S * Real.sqrt T) *
        Real.sqrt (D * T / (T - N ^ 2 / S))
      = N / S / (Real.sqrt (1 / D * (T - N ^ 2 / S)) / Real.sqrt S) := by
  have ha : 0 < Real.sqrt S := Real.sqrt_pos.mpr hS
  have hb : 0 < Real.sqrt T := Real.sqrt_pos.mpr hT
  have hc : 0 < Real.sqrt D := Real.sqrt_pos.mpr hD
  have he : 0 < Real.sqrt (T - N ^ 2 / S) := Real.sqrt_pos.mpr hE
  rw [Real.sqrt_div (mul_nonneg hD.le hT.le), Real.sqrt_mul hD.le,
    one_div_mul_eq_div, Real.sqrt_div hE.le]
  have hSa : Real.sqrt S ^ 2 = S := Real.sq_sqrt hS.le
  have hE2 : (0 : ℝ) < -N ^ 2 + T * S := by
    have h := mul_pos hS hE
    rw [show S * (T - N ^ 2 / S) = -N ^ 2 + T * S from by field_simp; ring] at h
    exact h
  have hE2s : Real.sqrt (-N ^ 2 + T * S) ≠ 0 := (Real.sqrt_pos.mpr hE2).ne'
  field_simp
  ring_nf
  rw [hSa]
  field_simp
  ring

/-- C10: the returned slope satisfies
`slope_j = r_j * sqrt(sum(ym_j^2) / sum(xm^2))`, and (ignoring the `1e-20`
epsilon) the t-statistic recomputed from `r` equals `slope_j / stderr_j`
whenever `stderr_j > 0` — so the p-value computed from `r` tests the null
hypothesis `slope = 0`. -/
theorem c10_slope_r_stderr_relation (x : Fin n → ℝ) (Y : Fin n → Fin m → ℝ)
    (j : Fin m) (h3 : 3 ≤ n) (hx : ss (xm x) ≠ 0)
    (hy : ss (fun i => ym Y i j) ≠ 0) :
    output x Y 0 j = pearson_r x Y j * Real.sqrt (sst Y j / ss (xm x)) ∧
      (0 < stderr x Y j →
        pearson_r x Y j * Real.sqrt (df n /
            ((1 - pearson_r x Y j) * (1 + pearson_r x Y j)))
          = output x Y 0 j / stderr x Y j) := by
  have hn : n ≠ 0 := by omega
  have hS : 0 < ss (xm x) := ss_pos_of_ne_zero hx
  have hT : 0 < sst Y j := ss_pos_of_ne_zero hy
  have hD : 0 < df n := by
    rw [df]
    have h : (3 : ℝ) ≤ (n : ℝ) := by exact_mod_cast h3
    linarith
  have hslope := output_zero_eq x Y j hn hx
  have hsst_ss : ss (fun i => ym Y i j) = sst Y j := rfl
  have hr_eq : pearson_r x Y j =
      r_num x Y j / (Real.sqrt (ss (xm x)) * Real.sqrt (sst Y j)) := by
    rw [pearson_r, r_den, hsst_ss, Real.sqrt_mul hS.le]
  have ha : 0 < Real.sqrt (ss (xm x)) := Real.sqrt_pos.mpr hS
  have hb : 0 < Real.sqrt (sst Y j) := Real.sqrt_pos.mpr hT
  have part1 : output x Y 0 j =
      pearson_r x Y j * Real.sqrt (sst Y j / ss (xm x)) := by
    rw [hslope, hr_eq, Real.sqrt_div hT.le, div_mul_div_comm]
    have hd : Real.sqrt (ss (xm x)) * Real.sqrt (sst Y j) *
        Real.sqrt (ss (xm x)) = ss (xm x) * Real.sqrt (sst Y j) := by
      rw [mul_right_comm, Real.mul_self_sqrt hS.le]
    rw [hd]
    rw [mul_comm (ss (xm x)) (Real.sqrt (sst Y j)), mul_comm (r_num x Y j)
      (Real.sqrt (sst Y j)), mul_div_mul_left _ _ hb.ne']
  refine ⟨part1, fun hpos => ?_⟩
  have hssr_eq : ssr x Y j = r_num x Y j ^ 2 / ss (xm x) := by
    simp only [ssr]
    rw [hslope]
    show (r_num x Y j / ss (xm x)) ^ 2 * ss (xm x) = _
    field_simp
    ring
  have hEpos : 0 < sst Y j - ssr x Y j := by
    by_contra hle
    push_neg at hle
    have hzero : Real.sqrt ((1 / df n) * (sst Y j - ssr x Y j)) = 0 :=
      Real.sqrt_eq_zero'.mpr
        (mul_nonpos_iff.mpr (Or.inl ⟨by positivity, hle⟩))
    simp only [stderr, se] at hpos
    rw [hzero, zero_div] at hpos
    exact lt_irrefl 0 hpos
  have hE : 0 < sst Y j - r_num x Y j ^ 2 / ss (xm x) := by
    rw [← hssr_eq]; exact hEpos
  have hden : (1 - pearson_r x Y j) * (1 + pearson_r x Y j) =
      (sst Y j - r_num x Y j ^ 2 / ss (xm x)) / sst Y j := by
    have h1 : (1 - pearson_r x Y j) * (1 + pearson_r x Y j) =
        1 - pearson_r x Y j ^ 2 := by ring
    rw [h1, hr_eq, div_pow, mul_pow, Real.sq_sqrt hS.le, Real.sq_sqrt hT.le]
    field_simp
    ring
  have hstderr_eq : stderr x Y j =
      Real.sqrt (1 / df n * (sst Y j - r_num x Y j ^ 2 / ss (xm x))) /
        Real.sqrt (ss (xm x)) := by
    simp only [stderr, se]
    rw [hssr_eq]
    rfl
  rw [hden, div_div_eq_mul_div, hr_eq, hslope, hstderr_eq]
  exact sqrt_ratio_algebra (r_num x Y j) (ss (xm x)) (sst Y j) (df n)
    hS hT hD hE

/-- Witness for C10: `x = [1,2,3]`, `Y` column `[1,2,4]`. -/
theorem c10_slope_r_stderr_relation_witness :
    output (![1, 2, 3] : Fin 3 → ℝ) (fun i _ => ![1, 2, 4] i : Fin 3 → Fin 1 → ℝ) 0 0
        = pearson_r ![1, 2, 3] (fun i _ => ![1, 2, 4] i : Fin 3 → Fin 1 → ℝ) 0 *
          Real.sqrt (sst (fun i _ => ![1, 2, 4] i : Fin 3 → Fin 1 → ℝ) 0 /
            ss (xm ![1, 2, 3])) ∧
      (0 < stderr ![1, 2, 3] (fun i _ => ![1, 2, 4] i : Fin 3 → Fin 1 → ℝ) 0 →
        pearson_r ![1, 2, 3] (fun i _ => ![1, 2, 4] i : Fin 3 → Fin 1 → ℝ) 0 *
            Real.sqrt (df 3 /
              ((1 - pearson_r ![1, 2, 3]
                  (fun i _ => ![1, 2, 4] i : Fin 3 → Fin 1 → ℝ) 0) *
                (1 + pearson_r ![1, 2, 3]
                  (fun i _ => ![1, 2, 4] i : Fin 3 → Fin 1 → ℝ) 0)))
          = output ![1, 2, 3] (fun i _ => ![1, 2, 4] i : Fin 3 → Fin 1 → ℝ) 0 0 /
            stderr ![1, 2, 3] (fun i _ => ![1, 2, 4] i : Fin 3 → Fin 1 → ℝ) 0) :=
  c10_slope_r_stderr_relation ![1, 2, 3] (fun i _ => ![1, 2, 4] i) 0
    (by norm_num)
    (by norm_num [ss, xm, mean, Fin.sum_univ_three])
    (by norm_num [ss, ym, mean, Fin.sum_univ_three])

/-- Witness for C9: `x = [1,2,3]`, `Y` column `[3,1,2]`. -/
theorem c9_pearson_r_bounded_witness :
    fit (fun _ _ => 0) (![1, 2, 3] : Fin 3 → ℝ)
      (fun i _ => ![3, 1, 2] i : Fin 3 → Fin 1 → ℝ) 2 0 ∈ Set.Icc (-1 : ℝ) 1 :=
  c9_pearson_r_bounded (fun _ _ => 0) ![1, 2, 3] (fun i _ => ![3, 1, 2] i) 0
    (by norm_num [ss, xm, mean, Fin.sum_univ_three])
    (by norm_num [ss, ym, mean, Fin.sum_univ_three])

/-!
The IEEE-special-value embedding. `numpy`-style floating arithmetic over
exact reals extended with `+inf`, `-inf` and NaN (rounding is not modelled;
the special values and their propagation are). `fitF` additionally models
the two ways `fit` can raise instead of returning: `np.linalg.solve` raises
`LinAlgError` when the normal matrix `mat1` is singular, and the Python
expression `1. / df` raises `ZeroDivisionError` when `df = ntim - 2 = 0`.
-/

/-- An IEEE-754-style value: a finite real, one of the two infinities, or
NaN. -/
inductive F where
  | fin (v : ℝ)
  | pinf
  | ninf
  | nan

/-- IEEE negation. -/
def fneg : F → F
  | .fin v => .fin (-v)
  | .pinf => .ninf
  | .ninf => .pinf
  | .nan => .nan

/-- IEEE addition: NaN absorbs, opposite infinities give NaN. -/
def fadd : F → F → F
  | .fin a, .fin b => .fin (a + b)
  | .fin _, .pinf => .pinf
  | .pinf, .fin _ => .pinf
  | .fin _, .ninf => .ninf
  | .ninf, .fin _ => .ninf
  | .pinf, .pinf => .pinf
  | .ninf, .ninf => .ninf
  | .pinf, .ninf => .nan
  | .ninf, .pinf => .nan
  | .nan, _ => .nan
  | _, .nan => .nan

/-- IEEE subtraction. -/
def fsub (a b : F) : F := fadd a (fneg b)

/-- IEEE multiplication: NaN absorbs, `0 * inf` is NaN. -/
def fmul : F → F → F
  | .fin a, .fin b => .fin (a * b)
  | .fin a, .pinf => if a = 0 then .nan else if 0 < a then .pinf else .ninf
  | .pinf, .fin b => if b = 0 then .nan else if 0 < b then .pinf else .ninf
  | .fin a, .ninf => if a = 0 then .nan else if 0 < a then .ninf else .pinf
  | .ninf, .fin b => if b = 0 then .nan else if 0 < b then .ninf else .pinf
  | .pinf, .pinf => .pinf
  | .ninf, .ninf => .pinf
  | .pinf, .ninf => .ninf
  | .ninf, .pinf => .ninf
  | .nan, _ => .nan
  | _, .nan => .nan

/-- IEEE division (as in `numpy` array division, which warns but does not
raise): `0/0` is NaN, `x/0` is a signed infinity, `inf/inf` is NaN. -/
def fdiv : F → F → F
  | .fin a, .fin b =>
      if b = 0 then (if a = 0 then .nan else if 0 < a then .pinf else .ninf)
      else .fin (a / b)
  | .fin _, .pinf => .fin 0
  | .fin _, .ninf => .fin 0
  | .pinf, .fin b => if 0 ≤ b then .pinf else .ninf
  | .ninf, .fin b => if 0 ≤ b then .ninf else .pinf
  | .pinf, .pinf => .nan
  | .pinf, .ninf => .nan
  | .ninf, .pinf => .nan
  | .ninf, .ninf => .nan
  | .nan, _ => .nan
  | _, .nan => .nan

/-- IEEE square root: NaN on negative arguments. -/
def fsqrt : F → F
  | .fin v => if v < 0 then .nan else .fin (Real.sqrt v)
  | .pinf => .pinf
  | .ninf => .nan
  | .nan => .nan

/-- IEEE absolute value. -/
def fabs : F → F
  | .fin v => .fin |v|
  | .pinf => .pinf
  | .ninf => .pinf
  | .nan => .nan

lemma fadd_nan_left (a : F) : fadd F.nan a = F.nan := by cases a <;> rfl

lemma fadd_nan_right (a : F) : fadd a F.nan = F.nan := by cases a <;> rfl

lemma fsub_fin_nan (v : ℝ) : fsub (F.fin v) F.nan = F.nan := rfl

lemma fmul_nan_left (a : F) : fmul F.nan a = F.nan := by cases a <;> rfl

lemma fmul_nan_right (a : F) : fmul a F.nan = F.nan := by cases a <;> rfl

lemma fdiv_nan_right (a : F) : fdiv a F.nan = F.nan := by cases a <;> rfl

lemma fsqrt_nan : fsqrt F.nan = F.nan := rfl

lemma fabs_nan : fabs F.nan = F.nan := rfl

/-- Source `pearson_r = r_num / r_den` with IEEE semantics: when a column of `Y` is
constant both `r_num` and `r_den` are `0` and the division produces NaN —
no epsilon guard is applied here. -/
def pearson_rF (x : Fin n → ℝ) (Y : Fin n → Fin m → ℝ) : Fin m → F :=
  fun j => fdiv (.fin (r_num x Y j)) (.fin (r_den x Y j))

/-- The t-statistic line with IEEE semantics; the `TINY` epsilon sits inside
the two denominator factors exactly as in the source. -/
def tvalF (x : Fin n → ℝ) (Y : Fin n → Fin m → ℝ) : Fin m → F :=
  fun j =>
    fmul (pearson_rF x Y j)
      (fsqrt (fdiv (.fin (df n))
        (fmul (fadd (fsub (.fin 1) (pearson_rF x Y j)) (.fin TINY))
          (fadd (fadd (.fin 1) (pearson_rF x Y j)) (.fin TINY)))))

/-- scipy's `t.sf` lifted to special values: `sf` of NaN is NaN, of `+inf`
is `0`, of `-inf` is `1`. -/
def sfF (sf : ℝ → ℝ → ℝ) (d : ℝ) : F → F
  | .fin t => .fin (sf t d)
  | .pinf => .fin 0
  | .ninf => .fin 1
  | .nan => .nan

/-- Source `pval = t.sf(np.abs(tval), df) * 2` with IEEE semantics. -/
def pvalF (sf : ℝ → ℝ → ℝ) (x : Fin n → ℝ) (Y : Fin n → Fin m → ℝ) :
    Fin m → F :=
  fun j => fmul (sfF sf (df n) (fabs (tvalF x Y j))) (.fin 2)

/-- Source `se = np.sqrt((1. / df) * (sst - ssr))` with IEEE semantics: only
reached once `df ≠ 0` (otherwise `1. / df` has already raised). -/
def seF (x : Fin n → ℝ) (Y : Fin n → Fin m → ℝ) : Fin m → F :=
  fun j => fsqrt (fmul (.fin (1 / df n)) (.fin (sst Y j - ssr x Y j)))

/-- Source `stderr = se / np.sqrt(np.sum(xm ** 2))` with IEEE semantics. -/
def stderrF (x : Fin n → ℝ) (Y : Fin n → Fin m → ℝ) : Fin m → F :=
  fun j => fdiv (seF x Y j) (fsqrt (.fin (∑ i, xm x i ^ 2)))

/-- The two exceptions `fit` can raise. -/
inductive PyError where
  | linAlgError
  | zeroDivisionError

/-- The `5 × m` stacked result on the successful path. -/
def fitOk (sf : ℝ → ℝ → ℝ) (x : Fin n → ℝ) (Y : Fin n → Fin m → ℝ) :
    Fin 5 → Fin m → F :=
  fun r j =>
    if r = 0 then .fin (output x Y 0 j)
    else if r = 1 then .fin (output x Y 1 j)
    else if r = 2 then pearson_rF x Y j
    else if r = 3 then pvalF sf x Y j
    else stderrF x Y j

/-- Function `fit` with the exceptional behaviour modelled: `np.linalg.solve` raises
`LinAlgError` on a singular `mat1` (in exact arithmetic: zero determinant),
and the Python scalar division `1. / df` raises `ZeroDivisionError` when
`df = ntim - 2 = 0`; otherwise the `5 × m` IEEE-valued result is returned. -/
def fitF (sf : ℝ → ℝ → ℝ) (x : Fin n → ℝ) (Y : Fin n → Fin m → ℝ) :
    Except PyError (Fin 5 → Fin m → F) :=
  if det2 (mat1 x) = 0 then .error .linAlgError
  else if df n = 0 then .error .zeroDivisionError
  else .ok (fitOk sf x Y)

/-- C4 counterexample: at the concrete degenerate input `x = [1, 1, 1]`
(zero variance, `n = 3`) with `Y = [[1], [2], [3]]`, `fit` does not return a
`5 × m` matrix of NaN/Inf entries at all: the normal matrix is exactly
singular and `np.linalg.solve` raises `LinAlgError`. -/
theorem c4_counterexample_zero_variance_x_raises :
    ss (xm (![1, 1, 1] : Fin 3 → ℝ)) = 0 ∧
      fitF (fun _ _ => 0) (![1, 1, 1] : Fin 3 → ℝ)
          (fun i _ => ![1, 2, 3] i : Fin 3 → Fin 1 → ℝ)
        = Except.error PyError.linAlgError := by
  have hss : ss (xm (![1, 1, 1] : Fin 3 → ℝ)) = 0 := by
    norm_num [ss, xm, mean, Fin.sum_univ_three]
  refine ⟨hss, ?_⟩
  have hdet : det2 (mat1 (![1, 1, 1] : Fin 3 → ℝ)) = 0 := by
    rw [det2_mat1 _ (by norm_num), hss, mul_zero]
  rw [fitF, if_pos hdet]

/-- C4 (amended): numerically degenerate inputs make `fit` raise rather
than return NaN/Inf entries: a zero-variance `x` (which includes every
`n ≤ 1`) makes the normal matrix singular, so `np.linalg.solve` raises
`LinAlgError`; with non-degenerate `x` and `n < 3` (hence `n = 2`,
`df = 0`), the scalar division `1. / df` raises `ZeroDivisionError`. -/
theorem c4_amended_degenerate_inputs_raise (sf : ℝ → ℝ → ℝ) (x : Fin n → ℝ)
    (Y : Fin n → Fin m → ℝ) :
    (ss (xm x) = 0 → fitF sf x Y = Except.error PyError.linAlgError) ∧
      (ss (xm x) ≠ 0 → n < 3 →
        fitF sf x Y = Except.error PyError.zeroDivisionError) := by
  constructor
  · intro h0
    have hdet : det2 (mat1 x) = 0 := by
      rcases Nat.eq_zero_or_pos n with hn | hn
      · subst hn
        simp [det2, mat1]
      · rw [det2_mat1 x hn.ne', h0, mul_zero]
    rw [fitF, if_pos hdet]
  · intro hne h3
    have hn0 : n ≠ 0 := fun h => hne (by subst h; simp [ss])
    have hn1 : n ≠ 1 := fun h =>
      hne (by subst h; norm_num [ss, xm, mean, Fin.sum_univ_one])
    have hn2 : n = 2 := by omega
    subst hn2
    have hdet : det2 (mat1 x) ≠ 0 := by
      rw [det2_mat1 x (by norm_num)]
      exact mul_ne_zero (by norm_num) hne
    rw [fitF, if_neg hdet, if_pos (by norm_num [df])]

/-- Witness for the amended C4: `x = [2,2,2,2]` (zero variance) raises
`LinAlgError`; `x = [0,1]` (`n = 2`, non-degenerate) raises
`ZeroDivisionError`. -/
theorem c4_amended_degenerate_inputs_raise_witness :
    fitF (fun _ _ => 0) (![2, 2, 2, 2] : Fin 4 → ℝ)
        (fun i _ => ![1, 2, 3, 4] i : Fin 4 → Fin 1 → ℝ)
      = Except.error PyError.linAlgError ∧
      fitF (fun _ _ => 0) (![0, 1] : Fin 2 → ℝ)
          (fun i _ => ![5, 7] i : Fin 2 → Fin 1 → ℝ)
        = Except.error PyError.zeroDivisionError :=
  ⟨(c4_amended_degenerate_inputs_raise (fun _ _ => 0) ![2, 2, 2, 2]
      (fun i _ => ![1, 2, 3, 4] i)).1
      (by norm_num [ss, xm, mean, Fin.sum_univ_four]),
    (c4_amended_degenerate_inputs_raise (fun _ _ => 0) ![0, 1]
      (fun i _ => ![5, 7] i)).2
      (by norm_num [ss, xm, mean, Fin.sum_univ_two]) (by norm_num)⟩

/-- C5 counterexample: at `x = [1, 2, 3]` (non-zero variance, `n = 3`) and
the zero-variance column `Y = [[5], [5], [5]]`, the Pearson division is
`0/0 = NaN` as the claim says, but the t-statistic and the p-value are NaN
too (NaN propagates through `1 - r + TINY`, `1 + r + TINY` and `t.sf`), not
defined values. -/
theorem c5_counterexample_nan_propagates_to_t_and_p :
    ss (xm (![1, 2, 3] : Fin 3 → ℝ)) ≠ 0 ∧
      ss (fun i =>
        ym (fun i _ => ![5, 5, 5] i : Fin 3 → Fin 1 → ℝ) i 0) = 0 ∧
      pearson_rF (![1, 2, 3] : Fin 3 → ℝ)
        (fun i _ => ![5, 5, 5] i : Fin 3 → Fin 1 → ℝ) 0 = F.nan ∧
      tvalF (![1, 2, 3] : Fin 3 → ℝ)
        (fun i _ => ![5, 5, 5] i : Fin 3 → Fin 1 → ℝ) 0 = F.nan ∧
      pvalF (fun _ _ => 0) (![1, 2, 3] : Fin 3 → ℝ)
        (fun i _ => ![5, 5, 5] i : Fin 3 → Fin 1 → ℝ) 0 = F.nan := by
  have hxvar : ss (xm (![1, 2, 3] : Fin 3 → ℝ)) ≠ 0 := by
    norm_num [ss, xm, mean, Fin.sum_univ_three]
  have hyzero : ss (fun i =>
      ym (fun i _ => ![5, 5, 5] i : Fin 3 → Fin 1 → ℝ) i 0) = 0 := by
    norm_num [ss, ym, mean, Fin.sum_univ_three]
  have hrnum : r_num (![1, 2, 3] : Fin 3 → ℝ)
      (fun i _ => ![5, 5, 5] i : Fin 3 → Fin 1 → ℝ) 0 = 0 := by
    norm_num [r_num, xm, ym, mean, Fin.sum_univ_three]
  have hrden : r_den (![1, 2, 3] : Fin 3 → ℝ)
      (fun i _ => ![5, 5, 5] i : Fin 3 → Fin 1 → ℝ) 0 = 0 := by
    simp only [r_den]
    rw [hyzero, mul_zero, Real.sqrt_zero]
  have hpr : pearson_rF (![1, 2, 3] : Fin 3 → ℝ)
      (fun i _ => ![5, 5, 5] i : Fin 3 → Fin 1 → ℝ) 0 = F.nan := by
    simp only [pearson_rF]
    rw [hrnum, hrden]
    simp [fdiv]
  have htv : tvalF (![1, 2, 3] : Fin 3 → ℝ)
      (fun i _ => ![5, 5, 5] i : Fin 3 → Fin 1 → ℝ) 0 = F.nan := by
    simp only [tvalF, hpr, fsub, fneg, fadd_nan_left, fadd_nan_right,
      fmul_nan_left, fmul_nan_right, fdiv_nan_right, fsqrt_nan]
  have hpv : pvalF (fun _ _ => 0) (![1, 2, 3] : Fin 3 → ℝ)
      (fun i _ => ![5, 5, 5] i : Fin 3 → Fin 1 → ℝ) 0 = F.nan := by
    simp only [pvalF, htv, fabs_nan, sfF, fmul_nan_left]
  exact ⟨hxvar, hyzero, hpr, htv, hpv⟩

/-- C5 (amended): the `1e-20` epsilon is applied only inside the two
t-statistic denominator factors, not in the Pearson-r division; consequently
a zero-variance column `j` of `Y` (with non-degenerate `x`, `n ≥ 3`) makes
`fit` return normally with `r_j = NaN` — and, because NaN propagates through
the t-statistic arithmetic and `t.sf`, `t_j` and `p_j` are NaN as well, not
defined values. -/
theorem c5_amended_zero_variance_column_all_nan (sf : ℝ → ℝ → ℝ)
    (x : Fin n → ℝ) (Y : Fin n → Fin m → ℝ) (j : Fin m) (h3 : 3 ≤ n)
    (hx : ss (xm x) ≠ 0) (hy : ss (fun i => ym Y i j) = 0) :
    fitF sf x Y = Except.ok (fitOk sf x Y) ∧
      pearson_rF x Y j = F.nan ∧ tvalF x Y j = F.nan ∧
      pvalF sf x Y j = F.nan ∧
      fitOk sf x Y 2 j = F.nan ∧ fitOk sf x Y 3 j = F.nan := by
  have hn : n ≠ 0 := by omega
  have hym0 : ∀ i, ym Y i j = 0 := by
    intro i
    have hsum : ∑ i, ym Y i j ^ 2 = 0 := hy
    have h := (Finset.sum_eq_zero_iff_of_nonneg
      (fun i _ => sq_nonneg (ym Y i j))).mp hsum i (Finset.mem_univ i)
    exact sq_eq_zero_iff.mp h
  have hrnum : r_num x Y j = 0 := by
    rw [r_num]
    exact Finset.sum_eq_zero fun i _ => by rw [hym0 i, mul_zero]
  have hrden : r_den x Y j = 0 := by
    simp only [r_den]
    rw [hy, mul_zero, Real.sqrt_zero]
  have hpr : pearson_rF x Y j = F.nan := by
    simp only [pearson_rF]
    rw [hrnum, hrden]
    simp [fdiv]
  have htv : tvalF x Y j = F.nan := by
    simp only [tvalF, hpr, fsub, fneg, fadd_nan_left, fadd_nan_right,
      fmul_nan_left, fmul_nan_right, fdiv_nan_right, fsqrt_nan]
  have hpv : pvalF sf x Y j = F.nan := by
    simp only [pvalF, htv, fabs_nan, sfF, fmul_nan_left]
  have hdet : det2 (mat1 x) ≠ 0 := by
    rw [det2_mat1 x hn]
    exact mul_ne_zero (Nat.cast_ne_zero.mpr hn) hx
  have hdf : df n ≠ 0 := by
    rw [df]
    have h : (3 : ℝ) ≤ (n : ℝ) := by exact_mod_cast h3
    linarith
  refine ⟨?_, hpr, htv, hpv, ?_, ?_⟩
  · rw [fitF, if_neg hdet, if_neg hdf]
  · simp only [fitOk]
    norm_num
    exact hpr
  · simp only [fitOk]
    norm_num
    exact hpv

/-- Witness for the amended C5: `x = [0, 1, 2]`, constant column
`Y = [[7], [7], [7]]`. -/
theorem c5_amended_zero_variance_column_all_nan_witness :
    fitF (fun _ _ => 1) (![0, 1, 2] : Fin 3 → ℝ)
        (fun i _ => ![7, 7, 7] i : Fin 3 → Fin 1 → ℝ)
      = Except.ok (fitOk (fun _ _ => 1) ![0, 1, 2]
          (fun i _ => ![7, 7, 7] i : Fin 3 → Fin 1 → ℝ)) ∧
      pearson_rF (![0, 1, 2] : Fin 3 → ℝ)
        (fun i _ => ![7, 7, 7] i : Fin 3 → Fin 1 → ℝ) 0 = F.nan ∧
      tvalF (![0, 1, 2] : Fin 3 → ℝ)
        (fun i _ => ![7, 7, 7] i : Fin 3 → Fin 1 → ℝ) 0 = F.nan ∧
      pvalF (fun _ _ => 1) (![0, 1, 2] : Fin 3 → ℝ)
        (fun i _ => ![7, 7, 7] i : Fin 3 → Fin 1 → ℝ) 0 = F.nan ∧
      fitOk (fun _ _ => 1) (![0, 1, 2] : Fin 3 → ℝ)
        (fun i _ => ![7, 7, 7] i : Fin 3 → Fin 1 → ℝ) 2 0 = F.nan ∧
      fitOk (fun _ _ => 1) (![0, 1, 2] : Fin 3 → ℝ)
        (fun i _ => ![7, 7, 7] i : Fin 3 → Fin 1 → ℝ) 3 0 = F.nan :=
  c5_amended_zero_variance_column_all_nan (fun _ _ => 1) ![0, 1, 2]
    (fun i _ => ![7, 7, 7] i) 0
    (by norm_num)
    (by norm_num [ss, xm, mean, Fin.sum_univ_three])
    (by norm_num [ss, ym, mean, Fin.sum_univ_three])

end Fastreg
